import Mathlib

/-!
Shallow embedding of the `ncs` Go package (Natural Color System colors):
the `Parse` function, the `Color.String` serializer and the `Color.RGBA`
converter, together with proofs of the specification's claims about them.

Machine integers are modelled as `Nat`/`Int`: Go `uint16` arithmetic is
`Nat` arithmetic reduced `% 65536` at every operation that can overflow,
Go `uint32` likewise `% 4294967296`; Go `int` is `Int`.  Go functions
that can panic (nil-pointer dereference in `RGBA`, `panic("not reached")`
in `Parse`) are modelled with `Option`/an error result.
-/

namespace ncs

/-- Wrap-around of Go `uint16` arithmetic. -/
def U16 : Nat := 65536

/-- Go conversion `uint16(x)` of an `int` value: the low 16 bits. -/
def u16ofInt (x : Int) : Nat := (x % 65536).toNat

/-- Go conversion `uint32(x)` of an `int` value: the low 32 bits. -/
def u32ofInt (x : Int) : Nat := (x % 4294967296).toNat

/-- Go `uint16` multiplication (wraps modulo 2^16). -/
def mul16 (a b : Nat) : Nat := a * b % 65536

/-- Go `uint16` addition (wraps modulo 2^16). -/
def add16 (a b : Nat) : Nat := (a + b) % 65536

/-- Go `uint16` subtraction (wraps modulo 2^16); operands are `uint16`
values, i.e. below 2^16. -/
def sub16 (a b : Nat) : Nat := (a + 65536 - b) % 65536

/-- The `rgb` struct of the source: three `uint16` channel values, each
in `0x00`–`0xff` ("the type is uint16 for overflow"). -/
structure rgb where
  r : Nat
  g : Nat
  b : Nat
deriving DecidableEq

/-- Reference color `yellow = rgb{0xFF, 0xD3, 0x00}`. -/
def yellow : rgb := ⟨0xFF, 0xD3, 0x00⟩

/-- Reference color `red = rgb{0xC4, 0x02, 0x33}`. -/
def red : rgb := ⟨0xC4, 0x02, 0x33⟩

/-- Reference color `blue = rgb{0x00, 0x87, 0xBD}`. -/
def blue : rgb := ⟨0x00, 0x87, 0xBD⟩

/-- Reference color `green = rgb{0x00, 0x9F, 0x6B}`. -/
def green : rgb := ⟨0x00, 0x9F, 0x6B⟩

/-- The `Color` struct: three exported Go `int` fields. -/
structure Color where
  Blackness : Int
  Chromaticness : Int
  Hue : Int
deriving DecidableEq

/-- Test for the regex character class `\d`. -/
def isDigitChar (ch : Char) : Bool := 48 ≤ ch.toNat && ch.toNat ≤ 57

/-- Numeric value of a decimal digit character, as Go `strconv.Atoi`
assigns it. -/
def digitVal (ch : Char) : Int := (ch.toNat : Int) - 48

/-- Go `strconv.Atoi` on a two-digit substring. -/
def atoi2 (d1 d2 : Char) : Int := 10 * digitVal d1 + digitVal d2

/-- The anchored regex
`\A(\d{2})(\d{2})-(N|Y|R|B|G|Y\d{2}R|R\d{2}B|B\d{2}G|G\d{2}Y)\z`
applied to the input: on a match, the values of groups 1 and 2 (already
converted by `Atoi`, which cannot fail on `\d{2}`) and the characters of
group 3.  The alternation is resolved by the total length: 6 characters
for the single-letter hue forms, 9 for the composite forms. -/
def matchNCS : List Char → Option (Int × Int × List Char)
  | [b1, b2, c1, c2, s, h1] =>
    if isDigitChar b1 ∧ isDigitChar b2 ∧ isDigitChar c1 ∧ isDigitChar c2 ∧ s = '-' ∧
       (h1 = 'N' ∨ h1 = 'Y' ∨ h1 = 'R' ∨ h1 = 'B' ∨ h1 = 'G')
    then some (atoi2 b1 b2, atoi2 c1 c2, [h1]) else none
  | [b1, b2, c1, c2, s, h1, h2, h3, h4] =>
    if isDigitChar b1 ∧ isDigitChar b2 ∧ isDigitChar c1 ∧ isDigitChar c2 ∧ s = '-' ∧
       isDigitChar h2 ∧ isDigitChar h3 ∧
       ((h1 = 'Y' ∧ h4 = 'R') ∨ (h1 = 'R' ∧ h4 = 'B') ∨
        (h1 = 'B' ∧ h4 = 'G') ∨ (h1 = 'G' ∧ h4 = 'Y'))
    then some (atoi2 b1 b2, atoi2 c1 c2, [h1, h2, h3, h4]) else none
  | _ => none

/-- The `switch` of `Parse` on the third capture group `m[3]`: returns
the possibly updated chromaticness and the hue.  `none` models the
`panic("not reached")` default branch (unreachable after a regex
match). -/
def resolveHue (c : Int) (hcs : List Char) : Option (Int × Int) :=
  if hcs = ['N'] then some (0, 0)
  else if hcs = ['Y'] then some (c, 0)
  else if hcs = ['R'] then some (c, 100)
  else if hcs = ['B'] then some (c, 200)
  else if hcs = ['G'] then some (c, 300)
  else
    match hcs with
    | h1 :: h2 :: h3 :: _ =>
      if h1 = 'Y' then some (c, atoi2 h2 h3)
      else if h1 = 'R' then some (c, atoi2 h2 h3 + 100)
      else if h1 = 'B' then some (c, atoi2 h2 h3 + 200)
      else if h1 = 'G' then some (c, atoi2 h2 h3 + 300)
      else none
    | _ => none

/-- The final normalization steps of `Parse`: clamp chromaticness to
`100 - b`, then force hue to 0 when the chromaticness is 0. -/
def normalize (b c h : Int) : Color :=
  let c2 := if 100 - b < c then 100 - b else c
  { Blackness := b, Chromaticness := c2, Hue := if c2 = 0 then 0 else h }

/-- Function `Parse` of the source: regex match, `switch` on the hue group, clamp
and normalize.  The `.error` in the `resolveHue = none` arm models the
`panic("not reached")` (proved unreachable below). -/
def Parse (str : String) : Except String Color :=
  match matchNCS str.toList with
  | none => .error ("ncs: invalid format: " ++ str)
  | some (b, c, hcs) =>
    match resolveHue c hcs with
    | none => .error "ncs: panic: not reached"
    | some (c2, h) => .ok (normalize b c2 h)

/-- One step of the textbook decimal digit expansion, with fuel. -/
def decDigitsAux : Nat → Nat → List Char
  | 0, _ => []
  | fuel + 1, n =>
    if n < 10 then [Nat.digitChar n]
    else decDigitsAux fuel (n / 10) ++ [Nat.digitChar (n % 10)]

/-- Go `fmt` verb `%02d`: decimal, zero-padded to a minimum width of
two (the sign counts toward the width). -/
def fmt02 (n : Int) : List Char :=
  if n < 0 then '-' :: decDigitsAux ((-n).toNat + 1) (-n).toNat
  else if n < 10 then ['0', Nat.digitChar n.toNat]
  else decDigitsAux (n.toNat + 1) n.toNat

/-- The Lean string type, under a name that stays visible inside the
`Color` namespace. -/
abbrev Str := String

/-- Method `String` of `Color` in the source: `switch` choosing the hue suffix
(default `"?"`), then `fmt.Sprintf("%02d%02d-%s", ...)`. -/
def Color.String (c : Color) : Str :=
  let hue : List Char :=
    if c.Chromaticness = 0 then ['N']
    else if c.Hue = 0 then ['Y']
    else if c.Hue = 100 then ['R']
    else if c.Hue = 200 then ['B']
    else if c.Hue = 300 then ['G']
    else if 0 < c.Hue ∧ c.Hue < 100 then 'Y' :: fmt02 c.Hue ++ ['R']
    else if 100 < c.Hue ∧ c.Hue < 200 then 'R' :: fmt02 (c.Hue - 100) ++ ['B']
    else if 200 < c.Hue ∧ c.Hue < 300 then 'B' :: fmt02 (c.Hue - 200) ++ ['G']
    else if 300 < c.Hue ∧ c.Hue < 400 then 'G' :: fmt02 (c.Hue - 300) ++ ['Y']
    else ['?']
  ⟨fmt02 c.Blackness ++ fmt02 c.Chromaticness ++ '-' :: hue⟩

/-- The hue-band `switch` of `RGBA`: the two endpoint reference colors
and the in-band position `v` (a `uint16`, converted from the `int`
difference as in the source).  `none` models the case where no band
matches and the endpoint pointers stay nil (the subsequent dereference
panics). -/
def hueBand (h : Int) : Option (rgb × rgb × Nat) :=
  if 0 ≤ h ∧ h < 100 then some (yellow, red, u16ofInt h)
  else if 100 ≤ h ∧ h < 200 then some (red, blue, u16ofInt (h - 100))
  else if 200 ≤ h ∧ h < 300 then some (blue, green, u16ofInt (h - 200))
  else if 300 ≤ h ∧ h < 400 then some (green, yellow, u16ofInt (h - 300))
  else none

/-- The per-channel interpolation shape shared by `c2`, `cw` and `c4`
in the source: `(a*(wmax-w) + b*w) / wmax` in `uint16` arithmetic. -/
def mix16 (a b w wmax : Nat) : Nat :=
  add16 (mul16 a (sub16 wmax w)) (mul16 b w) / wmax

/-- Method `RGBA` of `Color` in the source.  Here `none` models the nil-pointer panic
when the hue lies in no band; all arithmetic wraps as Go `uint16` /
`uint32` arithmetic does. -/
def Color.RGBA (c : Color) : Option (Nat × Nat × Nat × Nat) :=
  if c.Chromaticness = 0 then
    let a := u32ofInt (100 - c.Blackness) * 0xffff % 4294967296 / 100
    some (a, a, a, 0xffff)
  else
    match hueBand c.Hue with
    | none => none
    | some (c0, c1, v) =>
      let c2 : rgb := ⟨mix16 c0.r c1.r v 100, mix16 c0.g c1.g v 100, mix16 c0.b c1.b v 100⟩
      let ch := u16ofInt c.Chromaticness
      let cw : rgb := ⟨mix16 0xff c2.r ch 100, mix16 0xff c2.g ch 100, mix16 0xff c2.b ch 100⟩
      let cb : rgb := ⟨mul16 c2.r ch / 100, mul16 c2.g ch / 100, mul16 c2.b ch / 100⟩
      let bl := u16ofInt c.Blackness
      let blmax := sub16 100 ch
      if blmax = 0 then
        some (cw.r * 0x101, cw.g * 0x101, cw.b * 0x101, 0xffff)
      else if blmax < bl then
        some (0, 0, 0, 0xffff)
      else
        let c4 : rgb := ⟨mix16 cw.r cb.r bl blmax, mix16 cw.g cb.g bl blmax, mix16 cw.b cb.b bl blmax⟩
        some (c4.r * 0x101, c4.g * 0x101, c4.b * 0x101, 0xffff)

/-- The invariants of a well-formed `Color`, as the field comments of
the source state them: `Blackness` in `[0,99]`, `Chromaticness` in
`[0, min(100 - Blackness, 99)]`, `Hue = 0` when `Chromaticness = 0`,
and `Hue` in `[0,399]`. -/
def ColorInv (c : Color) : Prop :=
  0 ≤ c.Blackness ∧ c.Blackness ≤ 99 ∧
  0 ≤ c.Chromaticness ∧ c.Chromaticness ≤ 100 - c.Blackness ∧ c.Chromaticness ≤ 99 ∧
  (c.Chromaticness = 0 → c.Hue = 0) ∧
  0 ≤ c.Hue ∧ c.Hue ≤ 399

instance (c : Color) : Decidable (ColorInv c) := by
  unfold ColorInv; infer_instance

/-- Stage 1 of the blend, exact arithmetic: hue interpolation of one
channel of the two band endpoints. -/
def c2Exact (x y v : Nat) : Nat := (x * (100 - v) + y * v) / 100

/-- Stage 2 of the blend, exact arithmetic: the white-blended channel. -/
def cwExact (x y v ch : Nat) : Nat := (0xff * (100 - ch) + c2Exact x y v * ch) / 100

/-- Stage 2 of the blend, exact arithmetic: the black-blended channel. -/
def cbExact (x y v ch : Nat) : Nat := c2Exact x y v * ch / 100

/-- Stage 3 of the blend, exact arithmetic: interpolation between the
white-blended and black-blended channels by blackness, out of
`blmax = 100 - ch`. -/
def chanExact (x y v ch bl : Nat) : Nat :=
  (cwExact x y v ch * ((100 - ch) - bl) + cbExact x y v ch * bl) / (100 - ch)

/-- Definition `Color.RGBA` with the wrapping `uint16`/`uint32` reductions removed:
plain natural-number arithmetic at every stage, branch structure kept. -/
def RGBAexact (c : Color) : Option (Nat × Nat × Nat × Nat) :=
  if c.Chromaticness = 0 then
    let a := (100 - c.Blackness).toNat * 0xffff / 100
    some (a, a, a, 0xffff)
  else
    match hueBand c.Hue with
    | none => none
    | some (c0, c1, v) =>
      let ch := c.Chromaticness.toNat
      let bl := c.Blackness.toNat
      let blmax := 100 - ch
      if blmax = 0 then
        some (cwExact c0.r c1.r v ch * 0x101, cwExact c0.g c1.g v ch * 0x101,
              cwExact c0.b c1.b v ch * 0x101, 0xffff)
      else if blmax < bl then
        some (0, 0, 0, 0xffff)
      else
        some (chanExact c0.r c1.r v ch bl * 0x101, chanExact c0.g c1.g v ch bl * 0x101,
              chanExact c0.b c1.b v ch bl * 0x101, 0xffff)

lemma u16ofInt_eq {x : Int} (h0 : 0 ≤ x) (h : x < 65536) : u16ofInt x = x.toNat := by
  unfold u16ofInt
  rw [Int.emod_eq_of_lt h0 h]

lemma sub16_eq {a b : Nat} (hb : b ≤ a) (ha : a < 65536) : sub16 a b = a - b := by
  unfold sub16
  omega

lemma mul16_eq {a b : Nat} (h : a * b < 65536) : mul16 a b = a * b := by
  unfold mul16
  exact Nat.mod_eq_of_lt h

lemma add16_eq {a b : Nat} (h : a + b < 65536) : add16 a b = a + b := by
  unfold add16
  exact Nat.mod_eq_of_lt h

/-- The shared interpolation shape never overflows `uint16` and never
exceeds 255 when its endpoint channels are at most 255 and the weight
ceiling is at most 100. -/
lemma mix16_eq {a b w wmax : Nat} (ha : a ≤ 255) (hb : b ≤ 255)
    (hw : w ≤ wmax) (hmax : wmax ≤ 100) (hpos : 0 < wmax) :
    mix16 a b w wmax = (a * (wmax - w) + b * w) / wmax ∧
    (a * (wmax - w) + b * w) / wmax ≤ 255 := by
  have hsub : sub16 wmax w = wmax - w := sub16_eq hw (by omega)
  have hm1 : a * (wmax - w) ≤ 255 * (wmax - w) := Nat.mul_le_mul_right _ ha
  have hm2 : b * w ≤ 255 * w := Nat.mul_le_mul_right _ hb
  have hnum : a * (wmax - w) + b * w ≤ 255 * wmax := by
    have : 255 * (wmax - w) + 255 * w = 255 * wmax := by omega
    omega
  have hnum2 : a * (wmax - w) + b * w < 65536 := by omega
  have hdiv : (a * (wmax - w) + b * w) / wmax ≤ 255 := by
    calc (a * (wmax - w) + b * w) / wmax ≤ 255 * wmax / wmax :=
          Nat.div_le_div_right hnum
      _ = 255 := Nat.mul_div_cancel 255 hpos
  refine ⟨?_, hdiv⟩
  unfold mix16
  rw [hsub, mul16_eq (by omega), mul16_eq (by omega), add16_eq hnum2]

lemma hueBand_eq0 {h : Int} (h0 : 0 ≤ h) (h1 : h < 100) :
    hueBand h = some (yellow, red, h.toNat) := by
  unfold hueBand
  rw [if_pos ⟨h0, h1⟩, u16ofInt_eq h0 (by omega)]

lemma hueBand_eq1 {h : Int} (h0 : 100 ≤ h) (h1 : h < 200) :
    hueBand h = some (red, blue, (h - 100).toNat) := by
  unfold hueBand
  rw [if_neg (by omega), if_pos ⟨h0, h1⟩, u16ofInt_eq (by omega) (by omega)]

lemma hueBand_eq2 {h : Int} (h0 : 200 ≤ h) (h1 : h < 300) :
    hueBand h = some (blue, green, (h - 200).toNat) := by
  unfold hueBand
  rw [if_neg (by omega), if_neg (by omega), if_pos ⟨h0, h1⟩,
    u16ofInt_eq (by omega) (by omega)]

lemma hueBand_eq3 {h : Int} (h0 : 300 ≤ h) (h1 : h < 400) :
    hueBand h = some (green, yellow, (h - 300).toNat) := by
  unfold hueBand
  rw [if_neg (by omega), if_neg (by omega), if_neg (by omega), if_pos ⟨h0, h1⟩,
    u16ofInt_eq (by omega) (by omega)]

lemma hueBand_none {h : Int} (hout : h < 0 ∨ 400 ≤ h) : hueBand h = none := by
  unfold hueBand
  rw [if_neg (by omega), if_neg (by omega), if_neg (by omega), if_neg (by omega)]

/-- Each reference color has all channels at most 255, and the in-band
position is at most 99, whenever the hue-band `switch` matches. -/
lemma hueBand_bounds {h : Int} {c0 c1 : rgb} {v : Nat}
    (hband : hueBand h = some (c0, c1, v)) :
    c0.r ≤ 255 ∧ c0.g ≤ 255 ∧ c0.b ≤ 255 ∧
    c1.r ≤ 255 ∧ c1.g ≤ 255 ∧ c1.b ≤ 255 ∧ v ≤ 99 := by
  have hcases : h < 0 ∨ (0 ≤ h ∧ h < 100) ∨ (100 ≤ h ∧ h < 200) ∨
      (200 ≤ h ∧ h < 300) ∨ (300 ≤ h ∧ h < 400) ∨ 400 ≤ h := by omega
  rcases hcases with hr | hr | hr | hr | hr | hr
  · rw [hueBand_none (Or.inl hr)] at hband; cases hband
  · rw [hueBand_eq0 hr.1 hr.2] at hband
    simp only [Option.some.injEq, Prod.mk.injEq] at hband
    obtain ⟨rfl, rfl, rfl⟩ := hband
    exact ⟨by decide, by decide, by decide, by decide, by decide, by decide, by omega⟩
  · rw [hueBand_eq1 hr.1 hr.2] at hband
    simp only [Option.some.injEq, Prod.mk.injEq] at hband
    obtain ⟨rfl, rfl, rfl⟩ := hband
    exact ⟨by decide, by decide, by decide, by decide, by decide, by decide, by omega⟩
  · rw [hueBand_eq2 hr.1 hr.2] at hband
    simp only [Option.some.injEq, Prod.mk.injEq] at hband
    obtain ⟨rfl, rfl, rfl⟩ := hband
    exact ⟨by decide, by decide, by decide, by decide, by decide, by decide, by omega⟩
  · rw [hueBand_eq3 hr.1 hr.2] at hband
    simp only [Option.some.injEq, Prod.mk.injEq] at hband
    obtain ⟨rfl, rfl, rfl⟩ := hband
    exact ⟨by decide, by decide, by decide, by decide, by decide, by decide, by omega⟩
  · rw [hueBand_none (Or.inr hr)] at hband; cases hband

/-- One channel of the chromatic path: the wrapped `uint16` pipeline of
the source equals the exact pipeline whenever the bounds of the data
model hold. -/
lemma chan16_eq {x y : Nat} (hx : x ≤ 255) (hy : y ≤ 255) {v n m : Nat}
    (hv : v ≤ 99) (hn1 : 1 ≤ n) (hn : n ≤ 99) (hm : m ≤ 100 - n) :
    mix16 (mix16 0xff (mix16 x y v 100) n 100) (mul16 (mix16 x y v 100) n / 100) m (100 - n)
      = chanExact x y v n m := by
  obtain ⟨e2, b2⟩ := mix16_eq hx hy (show v ≤ 100 by omega) (le_refl 100) (by omega)
  rw [e2]
  set E2 := (x * (100 - v) + y * v) / 100 with hE2
  obtain ⟨ew, bw⟩ := mix16_eq (le_refl 255) b2 (show n ≤ 100 by omega) (le_refl 100) (by omega)
  rw [show (0xff : Nat) = 255 from rfl, ew]
  have hEn : E2 * n ≤ 255 * 100 := Nat.mul_le_mul b2 (by omega)
  have ecb : mul16 E2 n = E2 * n := mul16_eq (by omega)
  rw [ecb]
  have bcb : E2 * n / 100 ≤ 255 := by
    calc E2 * n / 100 ≤ 255 * 100 / 100 := Nat.div_le_div_right hEn
      _ = 255 := by norm_num
  obtain ⟨e4, _⟩ := mix16_eq bw bcb hm (by omega) (by omega)
  rw [e4]
  simp only [chanExact, cwExact, cbExact, c2Exact]

/-- Evaluation of `RGBA` on the chromatic path: for an invariant-
satisfying color with positive chromaticness whose hue matched a band,
the result is the exact three-stage blend of each channel, scaled by
`0x101`, with alpha `0xffff`. -/
lemma rgba_chromatic {c : Color} (hInv : ColorInv c) (hch : 0 < c.Chromaticness)
    {c0 c1 : rgb} {v : Nat} (hband : hueBand c.Hue = some (c0, c1, v)) :
    c.RGBA = some
      (chanExact c0.r c1.r v c.Chromaticness.toNat c.Blackness.toNat * 0x101,
       chanExact c0.g c1.g v c.Chromaticness.toNat c.Blackness.toNat * 0x101,
       chanExact c0.b c1.b v c.Chromaticness.toNat c.Blackness.toNat * 0x101, 0xffff) := by
  obtain ⟨hb0, hb99, hc0, hcb, hc99, _, hh0, hh399⟩ := hInv
  obtain ⟨hr0, hg0, hbb0, hr1, hg1, hbb1, hv⟩ := hueBand_bounds hband
  have hchne : ¬ c.Chromaticness = 0 := by omega
  have hch16 : u16ofInt c.Chromaticness = c.Chromaticness.toNat :=
    u16ofInt_eq (by omega) (by omega)
  have hbl16 : u16ofInt c.Blackness = c.Blackness.toNat := u16ofInt_eq hb0 (by omega)
  have hblmax : sub16 100 c.Chromaticness.toNat = 100 - c.Chromaticness.toNat :=
    sub16_eq (by omega) (by omega)
  have hn1 : 1 ≤ c.Chromaticness.toNat := by omega
  have hn99 : c.Chromaticness.toNat ≤ 99 := by omega
  have hm : c.Blackness.toNat ≤ 100 - c.Chromaticness.toNat := by omega
  simp only [Color.RGBA, hband, hch16, hbl16, hblmax, if_neg hchne]
  rw [if_neg (by omega : ¬ (100 - c.Chromaticness.toNat = 0)),
    if_neg (by omega : ¬ (100 - c.Chromaticness.toNat < c.Blackness.toNat)),
    chan16_eq hr0 hr1 hv hn1 hn99 hm,
    chan16_eq hg0 hg1 hv hn1 hn99 hm,
    chan16_eq hbb0 hbb1 hv hn1 hn99 hm]

lemma u32ofInt_eq {x : Int} (h0 : 0 ≤ x) (h : x < 4294967296) : u32ofInt x = x.toNat := by
  unfold u32ofInt
  rw [Int.emod_eq_of_lt h0 h]

/-- Evaluation of `RGBA` on the monochrome fast path. -/
lemma rgba_mono {c : Color} (hb0 : 0 ≤ c.Blackness) (hb99 : c.Blackness ≤ 99)
    (hch : c.Chromaticness = 0) :
    c.RGBA = some ((100 - c.Blackness).toNat * 0xffff / 100,
                   (100 - c.Blackness).toNat * 0xffff / 100,
                   (100 - c.Blackness).toNat * 0xffff / 100, 0xffff) := by
  have h32 : u32ofInt (100 - c.Blackness) = (100 - c.Blackness).toNat :=
    u32ofInt_eq (by omega) (by omega)
  have hb : (100 - c.Blackness).toNat ≤ 100 := by omega
  have hprod : (100 - c.Blackness).toNat * 0xffff ≤ 100 * 0xffff :=
    Nat.mul_le_mul_right _ hb
  have hmod : (100 - c.Blackness).toNat * 0xffff % 4294967296 =
      (100 - c.Blackness).toNat * 0xffff := Nat.mod_eq_of_lt (by omega)
  simp only [Color.RGBA, if_pos hch, h32, hmod]

/-- Evaluation of `RGBAexact` on the monochrome fast path. -/
lemma rgbaexact_mono {c : Color} (hch : c.Chromaticness = 0) :
    RGBAexact c = some ((100 - c.Blackness).toNat * 0xffff / 100,
                        (100 - c.Blackness).toNat * 0xffff / 100,
                        (100 - c.Blackness).toNat * 0xffff / 100, 0xffff) := by
  simp only [RGBAexact, if_pos hch]

/-- Evaluation of `RGBAexact` on the chromatic path. -/
lemma rgbaexact_chromatic {c : Color} (hInv : ColorInv c) (hch : 0 < c.Chromaticness)
    {c0 c1 : rgb} {v : Nat} (hband : hueBand c.Hue = some (c0, c1, v)) :
    RGBAexact c = some
      (chanExact c0.r c1.r v c.Chromaticness.toNat c.Blackness.toNat * 0x101,
       chanExact c0.g c1.g v c.Chromaticness.toNat c.Blackness.toNat * 0x101,
       chanExact c0.b c1.b v c.Chromaticness.toNat c.Blackness.toNat * 0x101, 0xffff) := by
  obtain ⟨hb0, hb99, hc0, hcb, hc99, _, hh0, hh399⟩ := hInv
  have hchne : ¬ c.Chromaticness = 0 := by omega
  simp only [RGBAexact, hband, if_neg hchne]
  rw [if_neg (by omega : ¬ (100 - c.Chromaticness.toNat = 0)),
    if_neg (by omega : ¬ (100 - c.Chromaticness.toNat < c.Blackness.toNat))]

/-- The exact per-channel blend stays within the 8-bit range. -/
lemma chanExact_le {x y : Nat} (hx : x ≤ 255) (hy : y ≤ 255) {v n m : Nat}
    (hv : v ≤ 99) (hn1 : 1 ≤ n) (hn : n ≤ 99) (hm : m ≤ 100 - n) :
    chanExact x y v n m ≤ 255 := by
  obtain ⟨_, b2⟩ := mix16_eq hx hy (show v ≤ 100 by omega) (le_refl 100) (by omega)
  obtain ⟨_, bw⟩ := mix16_eq (le_refl 255) b2 (show n ≤ 100 by omega) (le_refl 100) (by omega)
  have hEn : (x * (100 - v) + y * v) / 100 * n ≤ 255 * 100 := Nat.mul_le_mul b2 (by omega)
  have bcb : (x * (100 - v) + y * v) / 100 * n / 100 ≤ 255 := by
    calc (x * (100 - v) + y * v) / 100 * n / 100 ≤ 255 * 100 / 100 :=
          Nat.div_le_div_right hEn
      _ = 255 := by norm_num
  obtain ⟨_, b4⟩ := mix16_eq bw bcb hm (by omega) (by omega)
  simpa only [chanExact, cwExact, cbExact, c2Exact] using b4

/-- The hue-band `switch` matches whenever the hue is in `[0, 399]`. -/
lemma hueBand_total {h : Int} (h0 : 0 ≤ h) (h1 : h ≤ 399) :
    ∃ c0 c1 v, hueBand h = some (c0, c1, v) := by
  have hcases : (0 ≤ h ∧ h < 100) ∨ (100 ≤ h ∧ h < 200) ∨
      (200 ≤ h ∧ h < 300) ∨ (300 ≤ h ∧ h < 400) := by omega
  rcases hcases with hr | hr | hr | hr
  · exact ⟨_, _, _, hueBand_eq0 hr.1 hr.2⟩
  · exact ⟨_, _, _, hueBand_eq1 hr.1 hr.2⟩
  · exact ⟨_, _, _, hueBand_eq2 hr.1 hr.2⟩
  · exact ⟨_, _, _, hueBand_eq3 hr.1 hr.2⟩

/-- The hue band and in-band position as the specification's words
describe them for claim C1: "locate the 100-wide hue band containing
Hue", with the two endpoint reference colors and the in-band position. -/
def specBand (h : Int) : rgb × rgb × Nat :=
  if h < 100 then (yellow, red, h.toNat)
  else if h < 200 then (red, blue, (h - 100).toNat)
  else if h < 300 then (blue, green, (h - 200).toNat)
  else (green, yellow, (h - 300).toNat)

/-- The four-stage blend exactly as claim C1 words it: hue
interpolation `(endpointA*(100-v) + endpointB*v)/100`, white blend
`(255*(100-ch) + c2*ch)/100`, black blend `c2*ch/100`, blackness
interpolation over `blmax = 100-ch`, channels scaled by `0x101`, alpha
`0xffff`, with truncating division at each stage. -/
def rgbaFourStageBlend (c : Color) : Nat × Nat × Nat × Nat :=
  match specBand c.Hue with
  | (e0, e1, v) =>
    let ch := c.Chromaticness.toNat
    let bk := c.Blackness.toNat
    (chanExact e0.r e1.r v ch bk * 0x101,
     chanExact e0.g e1.g v ch bk * 0x101,
     chanExact e0.b e1.b v ch bk * 0x101, 0xffff)

lemma specBand_eq {h : Int} (h0 : 0 ≤ h) (h1 : h ≤ 399) :
    hueBand h = some (specBand h) := by
  unfold specBand
  have hcases : (0 ≤ h ∧ h < 100) ∨ (100 ≤ h ∧ h < 200) ∨
      (200 ≤ h ∧ h < 300) ∨ (300 ≤ h ∧ h < 400) := by omega
  rcases hcases with hr | hr | hr | hr
  · rw [if_pos hr.2]
    exact hueBand_eq0 hr.1 hr.2
  · rw [if_neg (by omega), if_pos hr.2]
    exact hueBand_eq1 hr.1 hr.2
  · rw [if_neg (by omega), if_neg (by omega), if_pos hr.2]
    exact hueBand_eq2 hr.1 hr.2
  · rw [if_neg (by omega), if_neg (by omega), if_neg (by omega)]
    exact hueBand_eq3 hr.1 hr.2

/-- C1: for every Color satisfying the data-model invariants with
`Chromaticness > 0`, `RGBA` returns exactly the four-stage blend of the
claim — hue-band interpolation, white and black chromaticness blends,
blackness interpolation over `blmax = 100 - ch`, each channel scaled by
`0x101`, alpha `0xffff`, with truncating integer division at each
stage, bit for bit. -/
theorem C1_rgba_four_stage_blend (c : Color) (hInv : ColorInv c)
    (hch : 0 < c.Chromaticness) :
    c.RGBA = some (rgbaFourStageBlend c) := by
  have hband : hueBand c.Hue = some (specBand c.Hue) :=
    specBand_eq hInv.2.2.2.2.2.2.1 hInv.2.2.2.2.2.2.2
  rcases hsb : specBand c.Hue with ⟨c0, c1, v⟩
  rw [hsb] at hband
  rw [rgba_chromatic hInv hch hband]
  simp only [rgbaFourStageBlend, hsb]

/-- Witness for C1 at the color `3010-Y10R` = `{30, 10, 10}`. -/
theorem C1_rgba_four_stage_blend_witness :
    ColorInv ⟨30, 10, 10⟩ ∧ (0 : Int) < 10 ∧
    Color.RGBA ⟨30, 10, 10⟩ = some (rgbaFourStageBlend ⟨30, 10, 10⟩) :=
  ⟨by decide, by decide, C1_rgba_four_stage_blend ⟨30, 10, 10⟩ (by decide) (by decide)⟩

/-- Modelled from the spec: round-to-nearest division, the `round(...)`
the monochrome-path sentence of the claim asserts (the source instead
truncates). -/
def roundDiv (a b : Nat) : Nat := (a + b / 2) / b

/-- C4, counterexample: at blackness 1 the code truncates
`99 * 0xffff / 100` to 64879, while the claimed
`round((100 - blackness)/100 * 0xffff)` is 64880. -/
theorem C4_mono_round_counterexample :
    Color.RGBA ⟨1, 0, 0⟩ = some (64879, 64879, 64879, 0xffff) ∧
    roundDiv ((100 - 1) * 0xffff) 100 = 64880 ∧
    Color.RGBA ⟨1, 0, 0⟩ ≠
      some (roundDiv ((100 - 1) * 0xffff) 100, roundDiv ((100 - 1) * 0xffff) 100,
            roundDiv ((100 - 1) * 0xffff) 100, 0xffff) := by
  refine ⟨by decide, by decide, by decide⟩

/-- C4 as amended: for every Color with `Chromaticness = 0` and
`Blackness` in `[0, 99]`, `RGBA` returns the achromatic value
`r = g = b = (100 - Blackness) * 0xffff / 100` with truncating
division (not round-to-nearest) and alpha `0xffff`; at blackness 0 all
channels are `0xffff` (full white) and at blackness 99 they are 655,
never pure black. -/
theorem C4_mono_gray (c : Color) (hb0 : 0 ≤ c.Blackness) (hb99 : c.Blackness ≤ 99)
    (hch : c.Chromaticness = 0) :
    c.RGBA = some ((100 - c.Blackness).toNat * 0xffff / 100,
                   (100 - c.Blackness).toNat * 0xffff / 100,
                   (100 - c.Blackness).toNat * 0xffff / 100, 0xffff) ∧
    Color.RGBA ⟨0, 0, 0⟩ = some (0xffff, 0xffff, 0xffff, 0xffff) ∧
    Color.RGBA ⟨99, 0, 0⟩ = some (655, 655, 655, 0xffff) := by
  exact ⟨rgba_mono hb0 hb99 hch, by decide, by decide⟩

/-- Witness for C4's amended theorem at blackness 30. -/
theorem C4_mono_gray_witness :
    Color.RGBA ⟨30, 0, 0⟩ = some ((100 - (30 : Int)).toNat * 0xffff / 100,
      (100 - (30 : Int)).toNat * 0xffff / 100,
      (100 - (30 : Int)).toNat * 0xffff / 100, 0xffff) ∧
    Color.RGBA ⟨0, 0, 0⟩ = some (0xffff, 0xffff, 0xffff, 0xffff) ∧
    Color.RGBA ⟨99, 0, 0⟩ = some (655, 655, 655, 0xffff) :=
  C4_mono_gray ⟨30, 0, 0⟩ (by decide) (by decide) (by decide)

/-- C8: for every invariant-satisfying Color with positive
chromaticness, `blmax = 100 - ch` is at least 1 (so the `blmax == 0`
degenerate branch is unreachable and the per-channel division by
`blmax` never divides by zero) and `bl ≤ blmax` (so the defensive
fully-black branch is unreachable). -/
theorem C8_branches_unreachable (c : Color) (hInv : ColorInv c)
    (hch : 0 < c.Chromaticness) :
    sub16 100 (u16ofInt c.Chromaticness) = 100 - c.Chromaticness.toNat ∧
    1 ≤ sub16 100 (u16ofInt c.Chromaticness) ∧
    sub16 100 (u16ofInt c.Chromaticness) ≠ 0 ∧
    u16ofInt c.Blackness ≤ sub16 100 (u16ofInt c.Chromaticness) ∧
    ¬ (sub16 100 (u16ofInt c.Chromaticness) < u16ofInt c.Blackness) := by
  obtain ⟨hb0, hb99, hc0, hcb, hc99, _, _, _⟩ := hInv
  have hch16 : u16ofInt c.Chromaticness = c.Chromaticness.toNat :=
    u16ofInt_eq (by omega) (by omega)
  have hbl16 : u16ofInt c.Blackness = c.Blackness.toNat := u16ofInt_eq hb0 (by omega)
  have hblmax : sub16 100 c.Chromaticness.toNat = 100 - c.Chromaticness.toNat :=
    sub16_eq (by omega) (by omega)
  rw [hch16, hbl16, hblmax]
  omega

/-- Witness for C8 at the color `{99, 1, 250}`. -/
theorem C8_branches_unreachable_witness :
    sub16 100 (u16ofInt (1 : Int)) = 100 - (1 : Int).toNat ∧
    1 ≤ sub16 100 (u16ofInt (1 : Int)) ∧
    sub16 100 (u16ofInt (1 : Int)) ≠ 0 ∧
    u16ofInt (99 : Int) ≤ sub16 100 (u16ofInt (1 : Int)) ∧
    ¬ (sub16 100 (u16ofInt (1 : Int)) < u16ofInt (99 : Int)) :=
  C8_branches_unreachable ⟨99, 1, 250⟩ (by decide) (by decide)

/-- C9: for every invariant-satisfying Color, the wrapping `uint16` /
`uint32` arithmetic of `RGBA` coincides with exact integer arithmetic
(`RGBAexact`, the same pipeline with every modular reduction removed),
and the returned channels are at most `0xffff` with alpha exactly
`0xffff`. -/
theorem C9_no_overflow (c : Color) (hInv : ColorInv c) :
    c.RGBA = RGBAexact c ∧
    ∃ r g b, c.RGBA = some (r, g, b, 0xffff) ∧
      r ≤ 0xffff ∧ g ≤ 0xffff ∧ b ≤ 0xffff := by
  obtain ⟨hb0, hb99, hc0, hcb, hc99, hmono, hh0, hh399⟩ := hInv
  by_cases hch : c.Chromaticness = 0
  · rw [rgba_mono hb0 hb99 hch, rgbaexact_mono hch]
    have hb : (100 - c.Blackness).toNat ≤ 100 := by omega
    have hprod : (100 - c.Blackness).toNat * 0xffff ≤ 100 * 0xffff :=
      Nat.mul_le_mul_right _ hb
    exact ⟨rfl, _, _, _, rfl, by omega, by omega, by omega⟩
  · have hchpos : 0 < c.Chromaticness := by omega
    obtain ⟨c0, c1, v, hband⟩ := hueBand_total hh0 hh399
    have hInv' : ColorInv c := ⟨hb0, hb99, hc0, hcb, hc99, hmono, hh0, hh399⟩
    rw [rgba_chromatic hInv' hchpos hband, rgbaexact_chromatic hInv' hchpos hband]
    obtain ⟨hr0, hg0, hbb0, hr1, hg1, hbb1, hv⟩ := hueBand_bounds hband
    have hn1 : 1 ≤ c.Chromaticness.toNat := by omega
    have hn99 : c.Chromaticness.toNat ≤ 99 := by omega
    have hm : c.Blackness.toNat ≤ 100 - c.Chromaticness.toNat := by omega
    have br := chanExact_le hr0 hr1 hv hn1 hn99 hm
    have bg := chanExact_le hg0 hg1 hv hn1 hn99 hm
    have bb := chanExact_le hbb0 hbb1 hv hn1 hn99 hm
    exact ⟨rfl, _, _, _, rfl, by omega, by omega, by omega⟩

/-- Witness for C9 at the color `{30, 20, 250}`. -/
theorem C9_no_overflow_witness :
    Color.RGBA ⟨30, 20, 250⟩ = RGBAexact ⟨30, 20, 250⟩ ∧
    ∃ r g b, Color.RGBA ⟨30, 20, 250⟩ = some (r, g, b, 0xffff) ∧
      r ≤ 0xffff ∧ g ≤ 0xffff ∧ b ≤ 0xffff :=
  C9_no_overflow ⟨30, 20, 250⟩ (by decide)

/-- C10: for a Color with positive chromaticness, `RGBA` panics (here:
returns `none`, modelling the nil-pointer dereference after no hue-band
case matched) exactly when the hue lies outside `[0, 400)`; the
hue-band `switch` itself matches no case there. -/
theorem C10_out_of_range_hue (c : Color) (hch : 0 < c.Chromaticness) :
    (c.RGBA = none ↔ (c.Hue < 0 ∨ 400 ≤ c.Hue)) ∧
    ((c.Hue < 0 ∨ 400 ≤ c.Hue) → hueBand c.Hue = none) := by
  have hchne : ¬ c.Chromaticness = 0 := by omega
  refine ⟨⟨?_, ?_⟩, fun hout => hueBand_none hout⟩
  · intro hnone
    by_contra hc
    push_neg at hc
    obtain ⟨c0, c1, v, hband⟩ := hueBand_total hc.1 (by omega)
    simp only [Color.RGBA, hband, if_neg hchne] at hnone
    split at hnone
    · cases hnone
    · split at hnone
      · cases hnone
      · cases hnone
  · intro hout
    simp only [Color.RGBA, hueBand_none hout, if_neg hchne]

/-- Witness for C10 at the constructible color `{0, 50, 400}`. -/
theorem C10_out_of_range_hue_witness :
    Color.RGBA ⟨0, 50, 400⟩ = none :=
  (C10_out_of_range_hue ⟨0, 50, 400⟩ (by decide)).1.mpr (by decide)

instance exceptDecEq {ε α : Type} [DecidableEq ε] [DecidableEq α] :
    DecidableEq (Except ε α) := fun x y =>
  match x, y with
  | .error a, .error b =>
    if h : a = b then .isTrue (h ▸ rfl) else .isFalse (fun hh => h (Except.error.inj hh))
  | .error _, .ok _ => .isFalse (fun hh => Except.noConfusion hh)
  | .ok _, .error _ => .isFalse (fun hh => Except.noConfusion hh)
  | .ok a, .ok b =>
    if h : a = b then .isTrue (h ▸ rfl) else .isFalse (fun hh => h (Except.ok.inj hh))

lemma atoi2_bounds {d1 d2 : Char} (h1 : isDigitChar d1 = true)
    (h2 : isDigitChar d2 = true) : 0 ≤ atoi2 d1 d2 ∧ atoi2 d1 d2 ≤ 99 := by
  simp only [isDigitChar, Bool.and_eq_true, decide_eq_true_eq] at h1 h2
  unfold atoi2 digitVal
  omega

/-- Inversion of the regex match: the bounds of the two digit groups
and the possible shapes of the hue group. -/
lemma matchNCS_inv {cs : List Char} {b c : Int} {hcs : List Char}
    (h : matchNCS cs = some (b, c, hcs)) :
    0 ≤ b ∧ b ≤ 99 ∧ 0 ≤ c ∧ c ≤ 99 ∧
    ((∃ h1, hcs = [h1] ∧
        (h1 = 'N' ∨ h1 = 'Y' ∨ h1 = 'R' ∨ h1 = 'B' ∨ h1 = 'G') ∧
        cs.getLast? = some h1) ∨
     (∃ h1 h2 h3 h4, hcs = [h1, h2, h3, h4] ∧
        isDigitChar h2 = true ∧ isDigitChar h3 = true ∧
        ((h1 = 'Y' ∧ h4 = 'R') ∨ (h1 = 'R' ∧ h4 = 'B') ∨
         (h1 = 'B' ∧ h4 = 'G') ∨ (h1 = 'G' ∧ h4 = 'Y')) ∧
        cs.getLast? = some h4)) := by
  rcases cs with _ | ⟨a1, _ | ⟨a2, _ | ⟨a3, _ | ⟨a4, _ | ⟨a5, _ | ⟨a6, _ | ⟨a7, _ |
    ⟨a8, _ | ⟨a9, _ | ⟨a10, rest⟩⟩⟩⟩⟩⟩⟩⟩⟩⟩ <;>
    simp only [matchNCS] at h
  · exact absurd h (by simp)
  · exact absurd h (by simp)
  · exact absurd h (by simp)
  · exact absurd h (by simp)
  · exact absurd h (by simp)
  · exact absurd h (by simp)
  · -- length 6: the single-letter hue forms
    split at h
    · rename_i hcond
      simp only [Option.some.injEq, Prod.mk.injEq] at h
      obtain ⟨rfl, rfl, rfl⟩ := h
      obtain ⟨hd1, hd2, hd3, hd4, rfl, hletter⟩ := hcond
      obtain ⟨hb1, hb2⟩ := atoi2_bounds hd1 hd2
      obtain ⟨hc1, hc2⟩ := atoi2_bounds hd3 hd4
      exact ⟨hb1, hb2, hc1, hc2, Or.inl ⟨a6, rfl, hletter, rfl⟩⟩
    · exact absurd h (by simp)
  · exact absurd h (by simp)
  · exact absurd h (by simp)
  · -- length 9: the composite hue forms
    split at h
    · rename_i hcond
      simp only [Option.some.injEq, Prod.mk.injEq] at h
      obtain ⟨rfl, rfl, rfl⟩ := h
      obtain ⟨hd1, hd2, hd3, hd4, rfl, hh2, hh3, hpair⟩ := hcond
      obtain ⟨hb1, hb2⟩ := atoi2_bounds hd1 hd2
      obtain ⟨hc1, hc2⟩ := atoi2_bounds hd3 hd4
      exact ⟨hb1, hb2, hc1, hc2, Or.inr ⟨a6, a7, a8, a9, rfl, hh2, hh3, hpair, rfl⟩⟩
    · exact absurd h (by simp)
  · exact absurd h (by simp)

lemma resolveHue_N (c : Int) : resolveHue c ['N'] = some (0, 0) := by
  unfold resolveHue
  rw [if_pos rfl]

lemma resolveHue_Y (c : Int) : resolveHue c ['Y'] = some (c, 0) := by
  unfold resolveHue
  rw [if_neg (by decide), if_pos rfl]

lemma resolveHue_R (c : Int) : resolveHue c ['R'] = some (c, 100) := by
  unfold resolveHue
  rw [if_neg (by decide), if_neg (by decide), if_pos rfl]

lemma resolveHue_B (c : Int) : resolveHue c ['B'] = some (c, 200) := by
  unfold resolveHue
  rw [if_neg (by decide), if_neg (by decide), if_neg (by decide), if_pos rfl]

lemma resolveHue_G (c : Int) : resolveHue c ['G'] = some (c, 300) := by
  unfold resolveHue
  rw [if_neg (by decide), if_neg (by decide), if_neg (by decide), if_neg (by decide),
    if_pos rfl]

lemma resolveHue_YR (c : Int) (h2 h3 : Char) :
    resolveHue c ['Y', h2, h3, 'R'] = some (c, atoi2 h2 h3) := by
  unfold resolveHue
  rw [if_neg (by simp), if_neg (by simp), if_neg (by simp), if_neg (by simp),
    if_neg (by simp)]
  simp

lemma resolveHue_RB (c : Int) (h2 h3 : Char) :
    resolveHue c ['R', h2, h3, 'B'] = some (c, atoi2 h2 h3 + 100) := by
  unfold resolveHue
  rw [if_neg (by simp), if_neg (by simp), if_neg (by simp), if_neg (by simp),
    if_neg (by simp)]
  simp

lemma resolveHue_BG (c : Int) (h2 h3 : Char) :
    resolveHue c ['B', h2, h3, 'G'] = some (c, atoi2 h2 h3 + 200) := by
  unfold resolveHue
  rw [if_neg (by simp), if_neg (by simp), if_neg (by simp), if_neg (by simp),
    if_neg (by simp)]
  simp

lemma resolveHue_GY (c : Int) (h2 h3 : Char) :
    resolveHue c ['G', h2, h3, 'Y'] = some (c, atoi2 h2 h3 + 300) := by
  unfold resolveHue
  rw [if_neg (by simp), if_neg (by simp), if_neg (by simp), if_neg (by simp),
    if_neg (by simp)]
  simp

/-- The normalization step keeps its arguments' bounds and establishes
the corrected data-model invariants. -/
lemma normalize_inv {b c h : Int} (hb0 : 0 ≤ b) (hb99 : b ≤ 99)
    (hc0 : 0 ≤ c) (hc99 : c ≤ 99) (hh0 : 0 ≤ h) (hh399 : h ≤ 399) :
    ColorInv (normalize b c h) := by
  unfold normalize ColorInv
  dsimp only
  split
  · split <;> (constructor <;> omega)
  · split <;> (constructor <;> omega)

lemma normalize_blackness (b c h : Int) : (normalize b c h).Blackness = b := rfl

/-- When the incoming chromaticness is 0 and the blackness is a
two-digit value, normalization yields the monochrome color. -/
lemma normalize_zero {b h : Int} (hb99 : b ≤ 99) :
    normalize b 0 h = ⟨b, 0, 0⟩ := by
  unfold normalize
  rw [if_neg (by omega)]
  simp

/-- Evaluation of `Parse` when the regex matched and the hue `switch`
resolved. -/
lemma Parse_eval {s : String} {b c : Int} {hcs : List Char}
    (hm : matchNCS s.toList = some (b, c, hcs)) {c2 h2 : Int}
    (hr : resolveHue c hcs = some (c2, h2)) :
    Parse s = .ok (normalize b c2 h2) := by
  unfold Parse
  rw [hm]
  simp only [hr]

/-- Evaluation of `Parse` when the regex did not match. -/
lemma Parse_err {s : String} (hm : matchNCS s.toList = none) :
    Parse s = .error ("ncs: invalid format: " ++ s) := by
  unfold Parse
  rw [hm]

/-- Full inversion of a successful `Parse`: the resulting color
satisfies the (corrected) data-model invariants, and an input whose
last character is `N` yields the monochrome normal form. -/
lemma Parse_ok_full {s : String} {col : Color} (h : Parse s = .ok col) :
    ColorInv col ∧
    (s.toList.getLast? = some 'N' → col.Chromaticness = 0 ∧ col.Hue = 0) := by
  cases hm : matchNCS s.toList with
  | none =>
    rw [Parse_err hm] at h
    exact absurd h (by simp)
  | some trip =>
    obtain ⟨b, c, hcs⟩ := trip
    obtain ⟨hb0, hb99, hc0, hc99, hshape⟩ := matchNCS_inv hm
    rcases hshape with ⟨h1, rfl, hletter, hlast⟩ |
      ⟨h1, h2, h3, h4, rfl, hd2, hd3, hpair, hlast⟩
    · rcases hletter with rfl | rfl | rfl | rfl | rfl
      · rw [Parse_eval hm (resolveHue_N c)] at h
        obtain rfl : normalize b 0 0 = col := Except.ok.inj h
        rw [normalize_zero hb99]
        refine ⟨by unfold ColorInv; dsimp only; omega, fun _ => ⟨rfl, rfl⟩⟩
      · rw [Parse_eval hm (resolveHue_Y c)] at h
        obtain rfl : normalize b c 0 = col := Except.ok.inj h
        refine ⟨normalize_inv hb0 hb99 hc0 hc99 (by omega) (by omega), fun hN => ?_⟩
        have := hlast.symm.trans hN
        simp at this
      · rw [Parse_eval hm (resolveHue_R c)] at h
        obtain rfl : normalize b c 100 = col := Except.ok.inj h
        refine ⟨normalize_inv hb0 hb99 hc0 hc99 (by omega) (by omega), fun hN => ?_⟩
        have := hlast.symm.trans hN
        simp at this
      · rw [Parse_eval hm (resolveHue_B c)] at h
        obtain rfl : normalize b c 200 = col := Except.ok.inj h
        refine ⟨normalize_inv hb0 hb99 hc0 hc99 (by omega) (by omega), fun hN => ?_⟩
        have := hlast.symm.trans hN
        simp at this
      · rw [Parse_eval hm (resolveHue_G c)] at h
        obtain rfl : normalize b c 300 = col := Except.ok.inj h
        refine ⟨normalize_inv hb0 hb99 hc0 hc99 (by omega) (by omega), fun hN => ?_⟩
        have := hlast.symm.trans hN
        simp at this
    · obtain ⟨ha0, ha99⟩ := atoi2_bounds hd2 hd3
      rcases hpair with ⟨rfl, rfl⟩ | ⟨rfl, rfl⟩ | ⟨rfl, rfl⟩ | ⟨rfl, rfl⟩
      · rw [Parse_eval hm (resolveHue_YR c h2 h3)] at h
        obtain rfl : normalize b c (atoi2 h2 h3) = col := Except.ok.inj h
        refine ⟨normalize_inv hb0 hb99 hc0 hc99 (by omega) (by omega), fun hN => ?_⟩
        have := hlast.symm.trans hN
        simp at this
      · rw [Parse_eval hm (resolveHue_RB c h2 h3)] at h
        obtain rfl : normalize b c (atoi2 h2 h3 + 100) = col := Except.ok.inj h
        refine ⟨normalize_inv hb0 hb99 hc0 hc99 (by omega) (by omega), fun hN => ?_⟩
        have := hlast.symm.trans hN
        simp at this
      · rw [Parse_eval hm (resolveHue_BG c h2 h3)] at h
        obtain rfl : normalize b c (atoi2 h2 h3 + 200) = col := Except.ok.inj h
        refine ⟨normalize_inv hb0 hb99 hc0 hc99 (by omega) (by omega), fun hN => ?_⟩
        have := hlast.symm.trans hN
        simp at this
      · rw [Parse_eval hm (resolveHue_GY c h2 h3)] at h
        obtain rfl : normalize b c (atoi2 h2 h3 + 300) = col := Except.ok.inj h
        refine ⟨normalize_inv hb0 hb99 hc0 hc99 (by omega) (by omega), fun hN => ?_⟩
        have := hlast.symm.trans hN
        simp at this

/-- The hue alternatives of the claimed grammar: one of `N`, `Y`, `R`,
`B`, `G`, or `Y##R`, `R##B`, `B##G`, `G##Y` with `##` two digits. -/
def hueTailB : List Char → Bool
  | [x] => x == 'N' || x == 'Y' || x == 'R' || x == 'B' || x == 'G'
  | [x, d1, d2, y] =>
    isDigitChar d1 && isDigitChar d2 &&
      ((x == 'Y' && y == 'R') || (x == 'R' && y == 'B') ||
       (x == 'B' && y == 'G') || (x == 'G' && y == 'Y'))
  | _ => false

/-- The NCS grammar as claim C7 words it: two digits, two digits, a
literal `-`, then one of the hue alternatives. -/
def NCSGrammar (s : String) : Bool :=
  match s.toList with
  | b1 :: b2 :: c1 :: c2 :: d :: rest =>
    isDigitChar b1 && isDigitChar b2 && isDigitChar c1 && isDigitChar c2 &&
      (d == '-') && hueTailB rest
  | _ => false

lemma isSome_ite {α : Type} {P : Prop} [Decidable P] {x : α} :
    ((if P then some x else none).isSome = true) ↔ P := by
  split <;> simp [*]

/-- The claimed grammar accepts exactly the strings the source's regex
matches. -/
lemma grammar_iff_match (s : String) :
    NCSGrammar s = true ↔ (matchNCS s.toList).isSome = true := by
  unfold NCSGrammar
  generalize s.toList = cs
  rcases cs with _ | ⟨a1, _ | ⟨a2, _ | ⟨a3, _ | ⟨a4, _ | ⟨a5, _ | ⟨a6, _ | ⟨a7, _ |
    ⟨a8, _ | ⟨a9, _ | ⟨a10, rest⟩⟩⟩⟩⟩⟩⟩⟩⟩⟩ <;>
    simp only [matchNCS, hueTailB]
  · simp
  · simp
  · simp
  · simp
  · simp
  · simp
  · rw [isSome_ite]
    simp only [Bool.and_eq_true, Bool.or_eq_true, beq_iff_eq]
    tauto
  · simp
  · simp
  · rw [isSome_ite]
    simp only [Bool.and_eq_true, Bool.or_eq_true, beq_iff_eq]
    tauto
  · simp

/-- A regex match always leads to a successful parse: the hue `switch`
cannot reach its `panic` branch. -/
lemma match_isSome_parse {s : String} (h : (matchNCS s.toList).isSome = true) :
    ∃ col, Parse s = .ok col := by
  cases hm : matchNCS s.toList with
  | none => rw [hm] at h; cases h
  | some trip =>
    obtain ⟨b, c, hcs⟩ := trip
    obtain ⟨_, _, _, _, hshape⟩ := matchNCS_inv hm
    rcases hshape with ⟨h1, rfl, hletter, _⟩ |
      ⟨h1, h2, h3, h4, rfl, _, _, hpair, _⟩
    · rcases hletter with rfl | rfl | rfl | rfl | rfl
      · exact ⟨_, Parse_eval hm (resolveHue_N c)⟩
      · exact ⟨_, Parse_eval hm (resolveHue_Y c)⟩
      · exact ⟨_, Parse_eval hm (resolveHue_R c)⟩
      · exact ⟨_, Parse_eval hm (resolveHue_B c)⟩
      · exact ⟨_, Parse_eval hm (resolveHue_G c)⟩
    · rcases hpair with ⟨rfl, rfl⟩ | ⟨rfl, rfl⟩ | ⟨rfl, rfl⟩ | ⟨rfl, rfl⟩
      · exact ⟨_, Parse_eval hm (resolveHue_YR c h2 h3)⟩
      · exact ⟨_, Parse_eval hm (resolveHue_RB c h2 h3)⟩
      · exact ⟨_, Parse_eval hm (resolveHue_BG c h2 h3)⟩
      · exact ⟨_, Parse_eval hm (resolveHue_GY c h2 h3)⟩

/-- C7: `Parse` succeeds on every string of the NCS grammar, and on
every other string it fails with the single invalid-format error
carrying the offending input. -/
theorem C7_invalid_format (s : String) :
    (NCSGrammar s = true → ∃ col, Parse s = .ok col) ∧
    (NCSGrammar s = false → Parse s = .error ("ncs: invalid format: " ++ s)) := by
  constructor
  · intro hg
    exact match_isSome_parse ((grammar_iff_match s).mp hg)
  · intro hg
    cases hm : matchNCS s.toList with
    | none => exact Parse_err hm
    | some t =>
      have := (grammar_iff_match s).mpr (by rw [hm]; rfl)
      rw [hg] at this
      cases this

/-- Witness for C7: a grammar-matching input parses, a malformed one
gets the invalid-format error. -/
theorem C7_invalid_format_witness :
    (∃ col, Parse "3010-Y10R" = .ok col) ∧
    Parse "30-Y" = .error ("ncs: invalid format: " ++ "30-Y") :=
  ⟨(C7_invalid_format "3010-Y10R").1 (by decide),
   (C7_invalid_format "30-Y").2 (by decide)⟩

/-- C3, counterexample: `Parse "3010-Y"` yields the pure Yellow color
`{30, 10, 0}`, whose hue is 0 while its chromaticness is 10, violating
the claimed biconditional `chromaticness == 0 ⇔ hue == 0`. -/
theorem C3_biconditional_counterexample :
    Parse "3010-Y" = .ok ⟨30, 10, 0⟩ ∧
    ¬ ((Color.mk 30 10 0).Chromaticness = 0 ↔ (Color.mk 30 10 0).Hue = 0) :=
  ⟨rfl, by decide⟩

/-- C3 as amended: for every string of the NCS grammar, `Parse`
succeeds and the result satisfies the corrected invariants — blackness
in `[0,99]`, chromaticness in `[0, min(100 - blackness, 99)]`,
chromaticness = 0 implies hue = 0 (the converse fails: hue 0 with
positive chromaticness encodes pure Yellow), and hue in `[0,399]`. -/
theorem C3_grammar_invariants (s : String) (hg : NCSGrammar s = true) :
    ∃ col, Parse s = .ok col ∧ ColorInv col := by
  obtain ⟨col, hcol⟩ := match_isSome_parse ((grammar_iff_match s).mp hg)
  exact ⟨col, hcol, (Parse_ok_full hcol).1⟩

/-- Witness for C3's amended theorem at `"3010-Y10R"`. -/
theorem C3_grammar_invariants_witness :
    ∃ col, Parse "3010-Y10R" = .ok col ∧ ColorInv col :=
  C3_grammar_invariants "3010-Y10R" (by decide)

/-- C5: an over-range chromaticness is silently clamped to `100 - b`
by the normalization step of `Parse`, and the parse still succeeds:
`"3080-Y10R"` yields `{30, 70, 10}` rendering `"3070-Y10R"`, and
`"9910-B50G"` yields `{99, 1, 250}` rendering `"9901-B50G"`. -/
theorem C5_chromaticness_clamp (b c h : Int) (hc : 100 - b < c) :
    (normalize b c h).Chromaticness = 100 - b ∧
    Parse "3080-Y10R" = .ok ⟨30, 70, 10⟩ ∧
    Color.String ⟨30, 70, 10⟩ = "3070-Y10R" ∧
    Parse "9910-B50G" = .ok ⟨99, 1, 250⟩ ∧
    Color.String ⟨99, 1, 250⟩ = "9901-B50G" := by
  refine ⟨?_, rfl, rfl, rfl, rfl⟩
  unfold normalize
  rw [if_pos hc]

/-- Witness for C5 at `b = 30`, `c = 80`, `h = 10`. -/
theorem C5_chromaticness_clamp_witness :
    (normalize 30 80 10).Chromaticness = 100 - 30 ∧
    Parse "3080-Y10R" = .ok ⟨30, 70, 10⟩ ∧
    Color.String ⟨30, 70, 10⟩ = "3070-Y10R" ∧
    Parse "9910-B50G" = .ok ⟨99, 1, 250⟩ ∧
    Color.String ⟨99, 1, 250⟩ = "9901-B50G" :=
  C5_chromaticness_clamp 30 80 10 (by decide)

/-- C6: a parsed input ending in the hue suffix `N` yields
chromaticness 0 and hue 0; any successful parse whose (possibly
clamped) chromaticness is 0 has hue 0; `"3000-Y10R"` parses to
`{30, 0, 0}`, which renders as `"3000-N"`. -/
theorem C6_monochrome_normalization (s : String) (col : Color)
    (hp : Parse s = .ok col) :
    (s.toList.getLast? = some 'N' → col.Chromaticness = 0 ∧ col.Hue = 0) ∧
    (col.Chromaticness = 0 → col.Hue = 0) ∧
    Parse "3000-Y10R" = .ok ⟨30, 0, 0⟩ ∧
    Color.String ⟨30, 0, 0⟩ = "3000-N" := by
  obtain ⟨hInv, hN⟩ := Parse_ok_full hp
  exact ⟨hN, hInv.2.2.2.2.2.1, rfl, rfl⟩

/-- Witness for C6 at `"3000-N"` and its parse result `{30, 0, 0}`. -/
theorem C6_monochrome_normalization_witness :
    (("3000-N" : String).toList.getLast? = some 'N' →
      (Color.mk 30 0 0).Chromaticness = 0 ∧ (Color.mk 30 0 0).Hue = 0) ∧
    ((Color.mk 30 0 0).Chromaticness = 0 → (Color.mk 30 0 0).Hue = 0) ∧
    Parse "3000-Y10R" = .ok ⟨30, 0, 0⟩ ∧
    Color.String ⟨30, 0, 0⟩ = "3000-N" :=
  C6_monochrome_normalization "3000-N" ⟨30, 0, 0⟩ (by decide)

/-- Formatting a value with `%02d` in `[0, 100)` is two decimal digits that `Atoi`
maps back to the value. -/
lemma fmt02_spec (n : Nat) (hn : n < 100) :
    fmt02 (n : Int) = [Nat.digitChar (n / 10), Nat.digitChar (n % 10)] ∧
    isDigitChar (Nat.digitChar (n / 10)) = true ∧
    isDigitChar (Nat.digitChar (n % 10)) = true ∧
    atoi2 (Nat.digitChar (n / 10)) (Nat.digitChar (n % 10)) = (n : Int) := by
  revert hn
  revert n
  decide

/-- Existential form of `fmt02_spec` for an `Int` in `[0, 100)`. -/
lemma fmt02_int {x : Int} (h0 : 0 ≤ x) (h1 : x < 100) :
    ∃ d1 d2, fmt02 x = [d1, d2] ∧ isDigitChar d1 = true ∧
      isDigitChar d2 = true ∧ atoi2 d1 d2 = x := by
  have hx : x = ((x.toNat : Nat) : Int) := by omega
  obtain ⟨e, i1, i2, a⟩ := fmt02_spec x.toNat (by omega)
  exact ⟨_, _, by rw [hx]; exact e, i1, i2, by rw [hx]; exact a⟩

/-- Parsing a six-character string assembled from digit and letter
characters. -/
lemma Parse_six {d1 d2 e1 e2 x : Char}
    (h1 : isDigitChar d1 = true) (h2 : isDigitChar d2 = true)
    (h3 : isDigitChar e1 = true) (h4 : isDigitChar e2 = true)
    (hx : x = 'N' ∨ x = 'Y' ∨ x = 'R' ∨ x = 'B' ∨ x = 'G')
    {c2 h : Int} (hres : resolveHue (atoi2 e1 e2) [x] = some (c2, h)) :
    Parse ⟨[d1, d2, e1, e2, '-', x]⟩ = .ok (normalize (atoi2 d1 d2) c2 h) :=
  Parse_eval (by
    simp only [String.toList, matchNCS]
    rw [if_pos ⟨h1, h2, h3, h4, trivial, hx⟩]) hres

/-- Parsing a nine-character string assembled from digit and letter
characters. -/
lemma Parse_nine {d1 d2 e1 e2 x f1 f2 y : Char}
    (h1 : isDigitChar d1 = true) (h2 : isDigitChar d2 = true)
    (h3 : isDigitChar e1 = true) (h4 : isDigitChar e2 = true)
    (h5 : isDigitChar f1 = true) (h6 : isDigitChar f2 = true)
    (hxy : (x = 'Y' ∧ y = 'R') ∨ (x = 'R' ∧ y = 'B') ∨
           (x = 'B' ∧ y = 'G') ∨ (x = 'G' ∧ y = 'Y'))
    {c2 h : Int} (hres : resolveHue (atoi2 e1 e2) [x, f1, f2, y] = some (c2, h)) :
    Parse ⟨[d1, d2, e1, e2, '-', x, f1, f2, y]⟩ =
      .ok (normalize (atoi2 d1 d2) c2 h) :=
  Parse_eval (by
    simp only [String.toList, matchNCS]
    rw [if_pos ⟨h1, h2, h3, h4, trivial, h5, h6, hxy⟩]) hres

/-- For a color within the invariants, normalization is the
identity. -/
lemma normalize_id {B C H : Int} (hcb : C ≤ 100 - B) (hch : C ≠ 0) :
    normalize B C H = ⟨B, C, H⟩ := by
  unfold normalize
  rw [if_neg (by omega)]
  dsimp only
  rw [if_neg hch]

/-- Serialization followed by parsing is the identity on every color
satisfying the corrected invariants. -/
lemma parse_string_roundtrip {B C H : Int} (hInv : ColorInv ⟨B, C, H⟩) :
    Parse (Color.String ⟨B, C, H⟩) = .ok ⟨B, C, H⟩ := by
  have hb0 : 0 ≤ B := hInv.1
  have hb99 : B ≤ 99 := hInv.2.1
  have hc0 : 0 ≤ C := hInv.2.2.1
  have hcb : C ≤ 100 - B := hInv.2.2.2.1
  have hc99 : C ≤ 99 := hInv.2.2.2.2.1
  have hmono : C = 0 → H = 0 := hInv.2.2.2.2.2.1
  have hh0 : 0 ≤ H := hInv.2.2.2.2.2.2.1
  have hh399 : H ≤ 399 := hInv.2.2.2.2.2.2.2
  obtain ⟨d1, d2, hfB, hdB1, hdB2, haB⟩ := fmt02_int hb0 (by omega)
  obtain ⟨e1, e2, hfC, hdC1, hdC2, haC⟩ := fmt02_int hc0 (by omega)
  simp only [Color.String]
  by_cases hch : C = 0
  · have hH : H = 0 := hmono hch
    subst hch
    subst hH
    rw [if_pos rfl, hfB, hfC]
    simp only [List.cons_append, List.nil_append]
    rw [Parse_six hdB1 hdB2 hdC1 hdC2 (Or.inl rfl) (resolveHue_N _), haB,
      normalize_zero hb99]
  · rw [if_neg hch]
    have hcases : H = 0 ∨ H = 100 ∨ H = 200 ∨ H = 300 ∨
        (0 < H ∧ H < 100) ∨ (100 < H ∧ H < 200) ∨
        (200 < H ∧ H < 300) ∨ (300 < H ∧ H < 400) := by omega
    rcases hcases with rfl | rfl | rfl | rfl | hr | hr | hr | hr
    · rw [if_pos rfl, hfB, hfC]
      simp only [List.cons_append, List.nil_append]
      rw [Parse_six hdB1 hdB2 hdC1 hdC2 (Or.inr (Or.inl rfl)) (resolveHue_Y _),
        haB, haC, normalize_id hcb hch]
    · rw [if_neg (by omega), if_pos rfl, hfB, hfC]
      simp only [List.cons_append, List.nil_append]
      rw [Parse_six hdB1 hdB2 hdC1 hdC2 (Or.inr (Or.inr (Or.inl rfl)))
        (resolveHue_R _), haB, haC, normalize_id hcb hch]
    · rw [if_neg (by omega), if_neg (by omega), if_pos rfl, hfB, hfC]
      simp only [List.cons_append, List.nil_append]
      rw [Parse_six hdB1 hdB2 hdC1 hdC2 (Or.inr (Or.inr (Or.inr (Or.inl rfl))))
        (resolveHue_B _), haB, haC, normalize_id hcb hch]
    · rw [if_neg (by omega), if_neg (by omega), if_neg (by omega), if_pos rfl,
        hfB, hfC]
      simp only [List.cons_append, List.nil_append]
      rw [Parse_six hdB1 hdB2 hdC1 hdC2 (Or.inr (Or.inr (Or.inr (Or.inr rfl))))
        (resolveHue_G _), haB, haC, normalize_id hcb hch]
    · obtain ⟨f1, f2, hfH, hdH1, hdH2, haH⟩ :=
        fmt02_int (show (0 : Int) ≤ H by omega) (by omega)
      rw [if_neg (by omega), if_neg (by omega), if_neg (by omega),
        if_neg (by omega), if_pos ⟨hr.1, hr.2⟩, hfB, hfC, hfH]
      simp only [List.cons_append, List.nil_append]
      rw [Parse_nine hdB1 hdB2 hdC1 hdC2 hdH1 hdH2 (Or.inl ⟨rfl, rfl⟩)
        (resolveHue_YR _ f1 f2), haB, haC, haH, normalize_id hcb hch]
    · obtain ⟨f1, f2, hfH, hdH1, hdH2, haH⟩ :=
        fmt02_int (show (0 : Int) ≤ H - 100 by omega) (by omega)
      rw [if_neg (by omega), if_neg (by omega), if_neg (by omega),
        if_neg (by omega), if_neg (by omega), if_pos ⟨hr.1, hr.2⟩, hfB, hfC, hfH]
      simp only [List.cons_append, List.nil_append]
      rw [Parse_nine hdB1 hdB2 hdC1 hdC2 hdH1 hdH2 (Or.inr (Or.inl ⟨rfl, rfl⟩))
        (resolveHue_RB _ f1 f2), haB, haC, haH,
        show H - 100 + 100 = H by omega, normalize_id hcb hch]
    · obtain ⟨f1, f2, hfH, hdH1, hdH2, haH⟩ :=
        fmt02_int (show (0 : Int) ≤ H - 200 by omega) (by omega)
      rw [if_neg (by omega), if_neg (by omega), if_neg (by omega),
        if_neg (by omega), if_neg (by omega), if_neg (by omega),
        if_pos ⟨hr.1, hr.2⟩, hfB, hfC, hfH]
      simp only [List.cons_append, List.nil_append]
      rw [Parse_nine hdB1 hdB2 hdC1 hdC2 hdH1 hdH2
        (Or.inr (Or.inr (Or.inl ⟨rfl, rfl⟩))) (resolveHue_BG _ f1 f2),
        haB, haC, haH, show H - 200 + 200 = H by omega, normalize_id hcb hch]
    · obtain ⟨f1, f2, hfH, hdH1, hdH2, haH⟩ :=
        fmt02_int (show (0 : Int) ≤ H - 300 by omega) (by omega)
      rw [if_neg (by omega), if_neg (by omega), if_neg (by omega),
        if_neg (by omega), if_neg (by omega), if_neg (by omega),
        if_neg (by omega), if_pos ⟨hr.1, hr.2⟩, hfB, hfC, hfH]
      simp only [List.cons_append, List.nil_append]
      rw [Parse_nine hdB1 hdB2 hdC1 hdC2 hdH1 hdH2
        (Or.inr (Or.inr (Or.inr ⟨rfl, rfl⟩))) (resolveHue_GY _ f1 f2),
        haB, haC, haH, show H - 300 + 300 = H by omega, normalize_id hcb hch]

/-- C2: for every Color produced by a successful `Parse`, parsing its
`String` rendering succeeds and returns the same Color — the
round-trip identity, including clamped and monochrome-normalized
results. -/
theorem C2_roundtrip (s : String) (col : Color) (h : Parse s = .ok col) :
    Parse (Color.String col) = .ok col := by
  obtain ⟨B, C, H⟩ := col
  exact parse_string_roundtrip (Parse_ok_full h).1

/-- Witness for C2 at the clamped parse `"3080-Y10R"` → `{30, 70, 10}`. -/
theorem C2_roundtrip_witness :
    Parse (Color.String ⟨30, 70, 10⟩) = .ok ⟨30, 70, 10⟩ :=
  C2_roundtrip "3080-Y10R" ⟨30, 70, 10⟩ (by decide)

end ncs
